import Mathlib

/-!
Verification of the bootstrap-and-shutdown core of the `smol-macros` crate.

The development shallowly embeds two pieces of the source:

* `src/wait_for_stop.rs` — the `WaitForStop` shutdown signal.  Its
  `wait()` method is an async loop; we model the interleaved execution of
  any number of `wait()` callers together with `stop()` calls as a labelled
  small-step transition system.  Each waiter carries a program counter
  ranging over the statements of the `wait()` body, and the listener set of
  the `event_listener::Event` is represented by a per-waiter registered
  listener with a notified bit.

* `src/main_executor.rs` — the `MainExecutor` impls and the
  `with_thread_pool` runner.  The runner is straight-line code whose
  observable behaviour we embed as the ordered list of pool events it
  performs (spawns with thread names, running the driving function,
  stopping the signal, joins performed by `thread::scope`) together with
  the outcome delivered to the caller.
-/

/-- Program points in the body of `WaitForStop::wait` (src/wait_for_stop.rs,
lines 26–38).  `checkFlag1` is the loop head about to execute
`self.stopped.load(Relaxed)`; `registerListener` is about to execute
`event_listener::listener!(&self.events => listener)`; `checkFlag2` is about
to execute `self.stopped.load(Acquire)`; `awaiting` is suspended on
`listener.await`; `done` means `wait()` has returned. -/
inductive WaitPC where
  | checkFlag1
  | registerListener
  | checkFlag2
  | awaiting
  | done
  deriving DecidableEq

/-- One task executing `WaitForStop::wait`: its program counter and, while a
listener is registered (pc is `checkFlag2` or `awaiting`), whether that
listener has been notified by `Event::notify_additional`. -/
structure Waiter where
  pc : WaitPC
  notified : Bool
  deriving DecidableEq

/-- A waiter holds a registered listener from the `listener!` statement until
the listener is dropped (on return, or when `listener.await` completes). -/
def Waiter.hasListener (w : Waiter) : Bool :=
  w.pc = WaitPC.checkFlag2 || w.pc = WaitPC.awaiting

/-- Global state of one `WaitForStop` signal (struct in
src/wait_for_stop.rs, lines 5–11) together with the tasks currently inside
`wait()`.  `stopped` is the `AtomicBool`; the `events : Event` field's
registered-listener set is represented by the waiters whose
`Waiter.hasListener` holds. -/
structure WaitForStop where
  stopped : Bool
  waiters : List Waiter
  deriving DecidableEq

/-- `WaitForStop::new` (src/wait_for_stop.rs, lines 16–21): the flag starts
`false` and the event starts with no listeners.  The parameter `n` is the
number of tasks that will call `wait()`; each starts at the loop head with
no listener registered. -/
def WaitForStop.new (n : Nat) : WaitForStop :=
  { stopped := false
    waiters := List.replicate n { pc := WaitPC.checkFlag1, notified := false } }

/-- Number of listeners currently registered with the signal's `Event`. -/
def WaitForStop.listenerCount (s : WaitForStop) : Nat :=
  (s.waiters.filter Waiter.hasListener).length

/-- Effect of `Event::notify_additional(usize::MAX)` on one waiter: a
registered listener becomes notified; a waiter with no listener is
unaffected (late arrivals are not woken by a past notification). -/
def notifyListener (w : Waiter) : Waiter :=
  if w.hasListener then { w with notified := true } else w

/-- `WaitForStop::stop` (src/wait_for_stop.rs, lines 43–46):
`self.stopped.store(true, SeqCst)` followed by
`self.events.notify_additional(usize::MAX)`, which notifies every listener
registered at that instant (and only those). -/
def WaitForStop.stop (s : WaitForStop) : WaitForStop :=
  { s with
    stopped := true
    waiters := s.waiters.map notifyListener }

/-- Labels of the atomic steps of the system: each statement of a waiter's
`wait()` body, a wake-up of a suspended waiter (notified or spurious), and a
call to `stop()`. -/
inductive Label where
  | firstCheck (i : Nat)
  | registerListener (i : Nat)
  | secondCheck (i : Nat)
  | wake (i : Nat)
  | spuriousWake (i : Nat)
  | stop
  deriving DecidableEq

/-- The waiter (if any) that performs a given step. -/
def Label.actor : Label → Option Nat
  | .firstCheck i => some i
  | .registerListener i => some i
  | .secondCheck i => some i
  | .wake i => some i
  | .spuriousWake i => some i
  | .stop => none

/-- One interleaved step of the system.  Each case embeds the corresponding
statement of `WaitForStop::wait` (src/wait_for_stop.rs, lines 26–38) or the
body of `WaitForStop::stop`:

* `firstCheck i`: `if self.stopped.load(Relaxed) { return }` — on `true`
  the call returns, otherwise control reaches the `listener!` statement;
* `registerListener i`: `listener!(&self.events => listener)` registers a
  fresh (un-notified) listener;
* `secondCheck i`: `if self.stopped.load(Acquire) { return }` — on `true`
  the call returns without suspending, otherwise it suspends on the
  listener;
* `wake i`: `listener.await` completes because the listener was notified;
  control re-enters the loop head;
* `spuriousWake i`: `listener.await` completes spuriously; control
  re-enters the loop head rather than returning;
* `stop`: some thread runs `WaitForStop::stop`. -/
def stepFn (s : WaitForStop) (l : Label) : Option WaitForStop :=
  match l with
  | .firstCheck i =>
    match s.waiters[i]? with
    | some w =>
      if w.pc = WaitPC.checkFlag1 then
        if s.stopped then
          some { s with waiters := s.waiters.set i { w with pc := WaitPC.done } }
        else
          some { s with waiters := s.waiters.set i { w with pc := WaitPC.registerListener } }
      else none
    | none => none
  | .registerListener i =>
    match s.waiters[i]? with
    | some w =>
      if w.pc = WaitPC.registerListener then
        some { s with waiters := s.waiters.set i { pc := WaitPC.checkFlag2, notified := false } }
      else none
    | none => none
  | .secondCheck i =>
    match s.waiters[i]? with
    | some w =>
      if w.pc = WaitPC.checkFlag2 then
        if s.stopped then
          some { s with waiters := s.waiters.set i { w with pc := WaitPC.done } }
        else
          some { s with waiters := s.waiters.set i { w with pc := WaitPC.awaiting } }
      else none
    | none => none
  | .wake i =>
    match s.waiters[i]? with
    | some w =>
      if w.pc = WaitPC.awaiting && w.notified then
        some { s with waiters := s.waiters.set i { pc := WaitPC.checkFlag1, notified := false } }
      else none
    | none => none
  | .spuriousWake i =>
    match s.waiters[i]? with
    | some w =>
      if w.pc = WaitPC.awaiting then
        some { s with waiters := s.waiters.set i { pc := WaitPC.checkFlag1, notified := false } }
      else none
    | none => none
  | .stop => some s.stop

/-- Execute a list of step labels from a state; `none` if some step is not
enabled. -/
def run (s : WaitForStop) : List Label → Option WaitForStop
  | [] => some s
  | l :: ls =>
    match stepFn s l with
    | some s' => run s' ls
    | none => none

/-- A state is reachable from another by some interleaving of steps. -/
def Reach (s t : WaitForStop) : Prop :=
  ∃ ls, run s ls = some t

/-- The program counter of waiter `i`, when it exists. -/
def pcOf (s : WaitForStop) (i : Nat) : Option WaitPC :=
  s.waiters[i]?.map Waiter.pc

example : run (WaitForStop.new 1)
    [Label.firstCheck 0, Label.registerListener 0, Label.secondCheck 0] =
    some { stopped := false, waiters := [{ pc := WaitPC.awaiting, notified := false }] } := by
  decide

example : pcOf (WaitForStop.stop (WaitForStop.new 1)) 0 = some WaitPC.checkFlag1 := by
  decide

example : run (WaitForStop.new 1) [Label.stop, Label.firstCheck 0] =
    some { stopped := true, waiters := [{ pc := WaitPC.done, notified := false }] } := by
  decide

/-! ### The thread-pool runner (src/main_executor.rs) -/

/-- Observable events performed by `with_thread_pool`
(src/main_executor.rs, lines 45–72), in the order they complete:
spawning worker `i` with its thread name, invoking the driving function
`f` on the calling thread, calling `stopper.stop()`, and the join of
worker `i` performed by `thread::scope` before the scope returns. -/
inductive PoolEvent where
  | spawn (i : Nat) (name : String)
  | runF
  | stop
  | join (i : Nat)
  deriving DecidableEq

/-- A panic unwinding out of `with_thread_pool`: either the payload of a
panic raised by the driving function (re-raised by
`std::panic::resume_unwind`), or the `.expect("failed to spawn thread")`
panic raised when spawning a worker fails. -/
inductive Panic (P : Type) where
  | user (payload : P)
  | spawnFailed
  deriving DecidableEq

/-- What the original caller of `with_thread_pool` observes: `f`'s value,
a panic unwinding out of the call, or no return at all — the call blocks
forever inside `thread::scope`'s implicit joins. -/
inductive PoolOutcome (P T : Type) where
  | ok (value : T)
  | panicked (payload : Panic P)
  | deadlock
  deriving DecidableEq

/-- The thread name given to worker `i`:
`.name(format!("smol-macros-{i}"))` (src/main_executor.rs, line 56). -/
def thread_name (i : Nat) : String :=
  "smol-macros-" ++ Nat.repr i

/-- `thread::available_parallelism().map_or(1, |num| num.get())`
(src/main_executor.rs, line 50): the detected parallelism when detection
succeeds, and `1` when it fails. -/
def num_threads (ap : Option Nat) : Nat :=
  match ap with
  | none => 1
  | some num => num

/-- Event-trace embedding of `with_thread_pool` (src/main_executor.rs,
lines 45–72).  `ap` is the result of `thread::available_parallelism`
(`none` on detection failure), `spawnOk i` tells whether spawning worker
`i` succeeds, and `fres` is the result of
`std::panic::catch_unwind(AssertUnwindSafe(f))`: `Except.ok v` when `f`
returns `v`, `Except.error p` when `f` panics with payload `p`.

On the path where every spawn succeeds, the trace is: the `num_threads`
spawns in index order, then `f` runs under `catch_unwind`, then
`stopper.stop()`, then `thread::scope` joins every spawned worker; the
caller finally receives `f`'s value, or `f`'s panic payload re-raised by
`resume_unwind`.

If spawning worker `k` fails (workers `0..k` having been spawned),
`.expect` panics before `f` ever runs and before `stopper.stop()` is ever
called.  When `k = 0` no worker exists, `thread::scope` has nothing to
join, and the expect panic unwinds to the caller.  When `k ≥ 1` the
already-spawned workers sit in `block_on(ex.run(stopper.wait()))` on a
signal whose `stop()` is never executed — by the signal model
(`new_initial_state`) no stop-free interleaving lets `wait()` return — so
the joins `thread::scope` performs while unwinding block forever: no join
completes and the call never returns to the caller. -/
def with_thread_pool {P T : Type} (ap : Option Nat) (spawnOk : Nat → Bool)
    (fres : Except P T) : List PoolEvent × PoolOutcome P T :=
  let numThreads := num_threads ap
  match (List.range numThreads).find? (fun i => !spawnOk i) with
  | some k =>
      ((List.range k).map fun i => PoolEvent.spawn i (thread_name i),
       if k = 0 then PoolOutcome.panicked Panic.spawnFailed else PoolOutcome.deadlock)
  | none =>
      (((List.range numThreads).map fun i => PoolEvent.spawn i (thread_name i)) ++
        [PoolEvent.runF, PoolEvent.stop] ++
        (List.range numThreads).map PoolEvent.join,
       match fres with
       | Except.ok value => PoolOutcome.ok value
       | Except.error p => PoolOutcome.panicked (Panic.user p))

/-- Number of spawn events in a trace. -/
def countSpawns (evs : List PoolEvent) : Nat :=
  evs.countP fun e => match e with | PoolEvent.spawn _ _ => true | _ => false

/-- Number of join events in a trace. -/
def countJoins (evs : List PoolEvent) : Nat :=
  evs.countP fun e => match e with | PoolEvent.join _ => true | _ => false

/-- The worker indices and thread names of the spawn events of a trace, in
spawn order. -/
def spawnRecords (evs : List PoolEvent) : List (Nat × String) :=
  evs.filterMap fun e => match e with
    | PoolEvent.spawn i name => some (i, name)
    | _ => none

/-- The thread names of the spawn events of a trace, in spawn order. -/
def spawnNames (evs : List PoolEvent) : List String :=
  evs.filterMap fun e => match e with
    | PoolEvent.spawn _ name => some name
    | _ => none

/-! ### The single-thread executor kinds (src/main_executor.rs, lines 30–41) -/

/-- Abstract handle for `async_executor::LocalExecutor`, an external
collaborator whose internals are out of scope. -/
def LocalExecutor : Type := Unit

/-- `LocalExecutor::new()`. -/
def LocalExecutor.new : LocalExecutor := ()

/-- Abstract model of `std::rc::Rc`: a reference-counted pointer is
observationally its pointee for our purposes. -/
def Rc (α : Type) : Type := α

/-- `Rc::new`. -/
def Rc.new {α : Type} (value : α) : Rc α := value

/-- `<LocalExecutor as MainExecutor>::with_main`
(src/main_executor.rs, lines 37–41): `f(&LocalExecutor::new())`, run
directly on the calling thread.  The trace of pool events is empty — no
worker thread is spawned — and `f`'s result (value or panic) passes
through unchanged. -/
def LocalExecutor.with_main {P T : Type} (f : LocalExecutor → Except P T) :
    List PoolEvent × Except P T :=
  ([], f LocalExecutor.new)

/-- `<Rc<LocalExecutor> as MainExecutor>::with_main`
(src/main_executor.rs, lines 30–35): `f(&Rc::new(LocalExecutor::new()))`,
run directly on the calling thread. -/
def Rc.with_main {P T : Type} (f : Rc LocalExecutor → Except P T) :
    List PoolEvent × Except P T :=
  ([], f (Rc.new LocalExecutor.new))

example :
    (with_thread_pool (some 2) (fun _ => true)
      (Except.error "boom" : Except String Nat)).2 =
    PoolOutcome.panicked (Panic.user "boom") := by
  rfl

example :
    countJoins (with_thread_pool (some 2) (fun _ => true)
      (Except.error "boom" : Except String Nat)).1 = 2 := by
  decide

example :
    spawnNames (with_thread_pool (some 2) (fun _ => true)
      (Except.ok 42 : Except String Nat)).1 = ["smol-macros-0", "smol-macros-1"] := by
  decide

example :
    (with_thread_pool (some 3) (fun i => decide (i ≠ 1))
      (Except.ok 42 : Except String Nat)) =
    ([PoolEvent.spawn 0 "smol-macros-0"], PoolOutcome.deadlock) := by
  rfl

example :
    (with_thread_pool (some 3) (fun i => decide (i ≠ 0))
      (Except.ok 42 : Except String Nat)) =
    ([], PoolOutcome.panicked Panic.spawnFailed) := by
  rfl

/-! ### Injectivity of the decimal representation used in thread names -/

/-- Decimal value of a digit character produced by `Nat.digitChar` on an
argument below ten. -/
def digitVal (c : Char) : Nat :=
  if c = '0' then 0 else if c = '1' then 1 else if c = '2' then 2 else
  if c = '3' then 3 else if c = '4' then 4 else if c = '5' then 5 else
  if c = '6' then 6 else if c = '7' then 7 else if c = '8' then 8 else 9

lemma digitVal_digitChar (n : Nat) (h : n < 10) :
    digitVal (Nat.digitChar n) = n := by
  interval_cases n <;> decide

/-- The decimal digit characters of `n`, most significant first; a
structurally recursive presentation of `Nat.toDigits 10`. -/
def natDigits (n : Nat) : List Char :=
  if h : n / 10 = 0 then [Nat.digitChar (n % 10)]
  else natDigits (n / 10) ++ [Nat.digitChar (n % 10)]
decreasing_by
  exact Nat.div_lt_self (Nat.pos_of_ne_zero fun h0 => h (by simp [h0])) (by decide)

lemma toDigitsCore_append (b fuel : Nat) :
    ∀ (n : Nat) (acc : List Char),
      Nat.toDigitsCore b fuel n acc = Nat.toDigitsCore b fuel n [] ++ acc := by
  induction fuel with
  | zero => intro n acc; simp [Nat.toDigitsCore]
  | succ f ih =>
    intro n acc
    simp only [Nat.toDigitsCore]
    by_cases h : n / b = 0
    · simp [h]
    · simp only [h, if_false]
      rw [ih (n / b) (Nat.digitChar (n % b) :: acc), ih (n / b) [Nat.digitChar (n % b)]]
      simp

lemma toDigitsCore_eq_natDigits :
    ∀ (fuel n : Nat), n < fuel → Nat.toDigitsCore 10 fuel n [] = natDigits n := by
  intro fuel
  induction fuel with
  | zero => intro n h; omega
  | succ f ih =>
    intro n h
    rw [natDigits]
    simp only [Nat.toDigitsCore]
    by_cases h10 : n / 10 = 0
    · simp [h10]
    · simp only [h10, if_false, dif_neg h10]
      rw [toDigitsCore_append 10 f (n / 10) [Nat.digitChar (n % 10)]]
      congr 1
      apply ih
      have hn : 0 < n := Nat.pos_of_ne_zero fun h0 => h10 (by simp [h0])
      have := Nat.div_lt_self hn (by decide : 1 < 10)
      omega

/-- Recover a number from its decimal digit characters. -/
def decodeDigits (l : List Char) : Nat :=
  l.foldl (fun acc c => 10 * acc + digitVal c) 0

lemma decodeDigits_natDigits : ∀ n, decodeDigits (natDigits n) = n := by
  intro n
  induction n using Nat.strong_induction_on with
  | _ n ih =>
    rw [natDigits]
    by_cases h10 : n / 10 = 0
    · have hlt : n < 10 := by omega
      simp only [h10, dif_pos]
      simp [decodeDigits, digitVal_digitChar _ (Nat.mod_lt n (by decide))]
      omega
    · simp only [dif_neg h10]
      have hn : 0 < n := Nat.pos_of_ne_zero fun h0 => h10 (by simp [h0])
      have hdec := ih (n / 10) (Nat.div_lt_self hn (by decide : 1 < 10))
      simp only [decodeDigits] at hdec ⊢
      rw [List.foldl_append, hdec]
      simp [digitVal_digitChar _ (Nat.mod_lt n (by decide))]
      omega

lemma natDigits_injective : Function.Injective natDigits := by
  intro a b h
  have h' := congrArg decodeDigits h
  rwa [decodeDigits_natDigits, decodeDigits_natDigits] at h'

lemma repr_data (n : Nat) : (Nat.repr n).data = natDigits n := by
  show (Nat.toDigits 10 n).asString.data = natDigits n
  rw [Nat.toDigits, toDigitsCore_eq_natDigits (n + 1) n (Nat.lt_succ_self n)]
  rfl

lemma natRepr_injective : Function.Injective Nat.repr := by
  intro a b h
  apply natDigits_injective
  rw [← repr_data, ← repr_data, h]

lemma thread_name_injective : Function.Injective thread_name := by
  intro a b h
  apply natRepr_injective
  have hd := congrArg String.data h
  simp only [thread_name, String.data_append] at hd
  exact String.ext (List.append_cancel_left hd)

/-! ### Basic facts about single steps -/

lemma pc_notify (w : Waiter) : (notifyListener w).pc = w.pc := by
  unfold notifyListener
  split <;> rfl

lemma stop_waiters_getElem? (s : WaitForStop) (i : Nat) :
    (s.stop).waiters[i]? = (s.waiters[i]?).map notifyListener := by
  simp [WaitForStop.stop]

lemma stop_pcOf (s : WaitForStop) (i : Nat) : pcOf s.stop i = pcOf s i := by
  simp only [pcOf, stop_waiters_getElem?, Option.map_map]
  cases s.waiters[i]? with
  | none => rfl
  | some w => simp [Function.comp, pc_notify]

/-- Case analysis of one step: either it is a `stop()` call, applying
`WaitForStop.stop` to the whole state, or it is a step of a single waiter
`j`, which replaces waiter `j` only, as dictated by the corresponding
statement of the `wait()` body. -/
lemma stepFn_cases {s s' : WaitForStop} {l : Label} (hstep : stepFn s l = some s') :
    (l = Label.stop ∧ s' = s.stop) ∨
    ∃ j wj w', s.waiters[j]? = some wj ∧
      s' = { s with waiters := s.waiters.set j w' } ∧ Label.actor l = some j ∧
      ((l = Label.firstCheck j ∧ wj.pc = WaitPC.checkFlag1 ∧
        w' = { wj with pc := if s.stopped then WaitPC.done else WaitPC.registerListener }) ∨
       (l = Label.registerListener j ∧ wj.pc = WaitPC.registerListener ∧
        w' = { pc := WaitPC.checkFlag2, notified := false }) ∨
       (l = Label.secondCheck j ∧ wj.pc = WaitPC.checkFlag2 ∧
        w' = { wj with pc := if s.stopped then WaitPC.done else WaitPC.awaiting }) ∨
       (l = Label.wake j ∧ wj.pc = WaitPC.awaiting ∧ wj.notified = true ∧
        w' = { pc := WaitPC.checkFlag1, notified := false }) ∨
       (l = Label.spuriousWake j ∧ wj.pc = WaitPC.awaiting ∧
        w' = { pc := WaitPC.checkFlag1, notified := false })) := by
  cases l with
  | stop =>
    simp only [stepFn] at hstep
    exact Or.inl ⟨rfl, (Option.some.inj hstep).symm⟩
  | firstCheck j =>
    simp only [stepFn] at hstep
    split at hstep
    case h_2 => exact absurd hstep (by simp)
    case h_1 wj hmj =>
      split at hstep
      case isFalse => exact absurd hstep (by simp)
      case isTrue hpc =>
        split at hstep <;> rename_i hstop <;> cases hstep
        · exact Or.inr ⟨j, wj, _, hmj, rfl, rfl, Or.inl ⟨rfl, hpc, by simp [hstop]⟩⟩
        · exact Or.inr ⟨j, wj, _, hmj, rfl, rfl, Or.inl ⟨rfl, hpc, by simp [hstop]⟩⟩
  | registerListener j =>
    simp only [stepFn] at hstep
    split at hstep
    case h_2 => exact absurd hstep (by simp)
    case h_1 wj hmj =>
      split at hstep
      case isFalse => exact absurd hstep (by simp)
      case isTrue hpc =>
        cases hstep
        exact Or.inr ⟨j, wj, _, hmj, rfl, rfl, Or.inr (Or.inl ⟨rfl, hpc, rfl⟩)⟩
  | secondCheck j =>
    simp only [stepFn] at hstep
    split at hstep
    case h_2 => exact absurd hstep (by simp)
    case h_1 wj hmj =>
      split at hstep
      case isFalse => exact absurd hstep (by simp)
      case isTrue hpc =>
        split at hstep <;> rename_i hstop <;> cases hstep
        · exact Or.inr ⟨j, wj, _, hmj, rfl, rfl,
            Or.inr (Or.inr (Or.inl ⟨rfl, hpc, by simp [hstop]⟩))⟩
        · exact Or.inr ⟨j, wj, _, hmj, rfl, rfl,
            Or.inr (Or.inr (Or.inl ⟨rfl, hpc, by simp [hstop]⟩))⟩
  | wake j =>
    simp only [stepFn] at hstep
    split at hstep
    case h_2 => exact absurd hstep (by simp)
    case h_1 wj hmj =>
      split at hstep
      case isFalse => exact absurd hstep (by simp)
      case isTrue hcond =>
        cases hstep
        have hcond' := hcond
        simp only [Bool.and_eq_true, decide_eq_true_eq] at hcond'
        exact Or.inr ⟨j, wj, _, hmj, rfl, rfl,
          Or.inr (Or.inr (Or.inr (Or.inl ⟨rfl, hcond'.1, hcond'.2, rfl⟩)))⟩
  | spuriousWake j =>
    simp only [stepFn] at hstep
    split at hstep
    case h_2 => exact absurd hstep (by simp)
    case h_1 wj hmj =>
      split at hstep
      case isFalse => exact absurd hstep (by simp)
      case isTrue hpc =>
        cases hstep
        exact Or.inr ⟨j, wj, _, hmj, rfl, rfl,
          Or.inr (Or.inr (Or.inr (Or.inr ⟨rfl, hpc, rfl⟩)))⟩

lemma stepFn_length {s s' : WaitForStop} {l : Label} (hstep : stepFn s l = some s') :
    s'.waiters.length = s.waiters.length := by
  rcases stepFn_cases hstep with ⟨_, rfl⟩ | ⟨j, wj, w', hmj, rfl, _, _⟩
  · simp [WaitForStop.stop]
  · simp

lemma stepFn_stopped_mono {s s' : WaitForStop} {l : Label} (hstep : stepFn s l = some s')
    (h : s.stopped = true) : s'.stopped = true := by
  rcases stepFn_cases hstep with ⟨_, rfl⟩ | ⟨j, wj, w', hmj, rfl, _, _⟩
  · rfl
  · exact h

lemma stepFn_stopped_of_ne_stop {s s' : WaitForStop} {l : Label}
    (hstep : stepFn s l = some s') (h : l ≠ Label.stop) : s'.stopped = s.stopped := by
  rcases stepFn_cases hstep with ⟨hl, rfl⟩ | ⟨j, wj, w', hmj, rfl, _, _⟩
  · exact absurd hl h
  · rfl

lemma stepFn_stop_only {s s' : WaitForStop} {l : Label} (hstep : stepFn s l = some s')
    (h : s.stopped = false) (h' : s'.stopped = true) : l = Label.stop := by
  by_contra hne
  rw [stepFn_stopped_of_ne_stop hstep hne, h] at h'
  exact Bool.false_ne_true h'

lemma waiters_set_getElem?_self {s : WaitForStop} {i : Nat} {w wnew : Waiter}
    (hw : s.waiters[i]? = some w) :
    (s.waiters.set i wnew)[i]? = some wnew :=
  List.getElem?_set_self (List.getElem?_eq_some_iff.mp hw).1

/-- C1.  Safety of `WaitForStop::wait`: a step of the system makes a
waiter's `wait()` call return (its program counter becomes `done`) only
when the `stopped` flag is `true` at that step, so no `wait()` call returns
while `stopped == false`; and a spurious wake-up sends the waiter back to
the loop head (`checkFlag1`), never to `done`. -/
theorem wait_returns_only_when_stopped :
    (∀ (s s' : WaitForStop) (l : Label) (i : Nat) (w w' : Waiter),
      stepFn s l = some s' →
      s.waiters[i]? = some w → s'.waiters[i]? = some w' →
      w.pc ≠ WaitPC.done → w'.pc = WaitPC.done →
      s.stopped = true ∧ s'.stopped = true) ∧
    (∀ (s s' : WaitForStop) (i : Nat) (w' : Waiter),
      stepFn s (Label.spuriousWake i) = some s' →
      s'.waiters[i]? = some w' → w'.pc = WaitPC.checkFlag1) := by
  constructor
  · intro s s' l i w w' hstep hw hw' hnd hd
    rcases stepFn_cases hstep with ⟨hl, rfl⟩ | ⟨j, wj, wnew, hmj, rfl, hactor, hcase⟩
    · exfalso
      rw [stop_waiters_getElem? s i, hw] at hw'
      apply hnd
      rw [← hd, ← Option.some.inj hw', pc_notify]
    · by_cases hij : i = j
      · subst hij
        rw [hw] at hmj
        cases Option.some.inj hmj
        rw [show ({ s with waiters := s.waiters.set i wnew } : WaitForStop).waiters[i]? =
              (s.waiters.set i wnew)[i]? from rfl,
            waiters_set_getElem?_self hw] at hw'
        cases Option.some.inj hw'
        rcases hcase with ⟨_, hpc, hweq⟩ | ⟨_, hpc, hweq⟩ | ⟨_, hpc, hweq⟩ |
            ⟨_, hpc, hnot, hweq⟩ | ⟨_, hpc, hweq⟩
        · by_cases hstop : s.stopped = true
          · exact ⟨hstop, hstop⟩
          · rw [hweq] at hd
            simp [Bool.eq_false_iff.mpr hstop] at hd
        · rw [hweq] at hd; simp at hd
        · by_cases hstop : s.stopped = true
          · exact ⟨hstop, hstop⟩
          · rw [hweq] at hd
            simp [Bool.eq_false_iff.mpr hstop] at hd
        · rw [hweq] at hd; simp at hd
        · rw [hweq] at hd; simp at hd
      · exfalso
        rw [show ({ s with waiters := s.waiters.set j wnew } : WaitForStop).waiters[i]? =
              (s.waiters.set j wnew)[i]? from rfl,
            List.getElem?_set_ne (fun h => hij h.symm), hw] at hw'
        cases Option.some.inj hw'
        exact hnd hd
  · intro s s' i w' hstep hw'
    rcases stepFn_cases hstep with ⟨hl, _⟩ | ⟨j, wj, wnew, hmj, rfl, hactor, hcase⟩
    · exact absurd hl (by simp)
    · have hji : i = j := by
        simpa [Label.actor] using hactor
      subst hji
      rcases hcase with ⟨hl, _, _⟩ | ⟨hl, _, _⟩ | ⟨hl, _, _⟩ | ⟨hl, _, _, _⟩ | ⟨_, hpc, hweq⟩
      · exact absurd hl (by simp)
      · exact absurd hl (by simp)
      · exact absurd hl (by simp)
      · exact absurd hl (by simp)
      · rw [show ({ s with waiters := s.waiters.set i wnew } : WaitForStop).waiters[i]? =
              (s.waiters.set i wnew)[i]? from rfl,
            waiters_set_getElem?_self hmj] at hw'
        cases Option.some.inj hw'
        rw [hweq]

theorem wait_returns_only_when_stopped_witness :
    (WaitForStop.stop (WaitForStop.new 1)).stopped = true ∧
    ({ stopped := true, waiters := [{ pc := WaitPC.done, notified := false }] }
      : WaitForStop).stopped = true :=
  wait_returns_only_when_stopped.1
    (WaitForStop.stop (WaitForStop.new 1))
    { stopped := true, waiters := [{ pc := WaitPC.done, notified := false }] }
    (Label.firstCheck 0) 0
    { pc := WaitPC.checkFlag1, notified := false }
    { pc := WaitPC.done, notified := false }
    (by decide) (by decide) (by decide) (by decide) (by decide)

/-! ### Forward computation of single waiter steps -/

lemma stepFn_firstCheck {s : WaitForStop} {i : Nat} {w : Waiter}
    (hm : s.waiters[i]? = some w) (hpc : w.pc = WaitPC.checkFlag1) :
    stepFn s (Label.firstCheck i) = some { s with waiters := s.waiters.set i ({ w with pc := if s.stopped then WaitPC.done else WaitPC.registerListener }) } := by
  cases hstop : s.stopped <;> simp [stepFn, hm, hpc, hstop]

lemma stepFn_registerListener {s : WaitForStop} {i : Nat} {w : Waiter}
    (hm : s.waiters[i]? = some w) (hpc : w.pc = WaitPC.registerListener) :
    stepFn s (Label.registerListener i) = some { s with waiters := s.waiters.set i ({ pc := WaitPC.checkFlag2, notified := false }) } := by
  simp [stepFn, hm, hpc]

lemma stepFn_secondCheck {s : WaitForStop} {i : Nat} {w : Waiter}
    (hm : s.waiters[i]? = some w) (hpc : w.pc = WaitPC.checkFlag2) :
    stepFn s (Label.secondCheck i) = some { s with waiters := s.waiters.set i ({ w with pc := if s.stopped then WaitPC.done else WaitPC.awaiting }) } := by
  cases hstop : s.stopped <;> simp [stepFn, hm, hpc, hstop]

lemma stepFn_wake {s : WaitForStop} {i : Nat} {w : Waiter}
    (hm : s.waiters[i]? = some w) (hpc : w.pc = WaitPC.awaiting)
    (hnot : w.notified = true) :
    stepFn s (Label.wake i) = some { s with waiters := s.waiters.set i ({ pc := WaitPC.checkFlag1, notified := false }) } := by
  simp [stepFn, hm, hpc, hnot]

lemma pcOf_set_self {s : WaitForStop} {i : Nat} {w wnew : Waiter}
    (hm : s.waiters[i]? = some w) :
    pcOf { s with waiters := s.waiters.set i wnew } i = some wnew.pc := by
  simp only [pcOf]
  rw [show ({ s with waiters := s.waiters.set i wnew } : WaitForStop).waiters[i]? =
        (s.waiters.set i wnew)[i]? from rfl,
      waiters_set_getElem?_self hm]
  rfl

/-- C2.  The protocol order of `WaitForStop::wait`: (a) from the loop head,
if `stopped` reads `true` the call returns at once; (b) otherwise the very
next action of that waiter is registering a listener — registration comes
strictly before the second flag check; (c) the only step that brings a
waiter to the second-check point is its listener registration; (d) the
second check is enabled only with a listener registered; (e) at the second
check, if `stopped` reads `true` the call returns without suspending, and
(f) only otherwise does the waiter suspend on the listener. -/
theorem wait_step_order :
    (∀ (s s' : WaitForStop) (i : Nat) (w : Waiter),
      s.waiters[i]? = some w → w.pc = WaitPC.checkFlag1 → s.stopped = true →
      stepFn s (Label.firstCheck i) = some s' → pcOf s' i = some WaitPC.done) ∧
    (∀ (s s' : WaitForStop) (i : Nat) (w : Waiter),
      s.waiters[i]? = some w → w.pc = WaitPC.checkFlag1 → s.stopped = false →
      stepFn s (Label.firstCheck i) = some s' →
      pcOf s' i = some WaitPC.registerListener) ∧
    (∀ (s s' : WaitForStop) (l : Label) (i : Nat) (w w' : Waiter),
      stepFn s l = some s' → s.waiters[i]? = some w → s'.waiters[i]? = some w' →
      w.pc ≠ WaitPC.checkFlag2 → w'.pc = WaitPC.checkFlag2 →
      l = Label.registerListener i) ∧
    (∀ (s s' : WaitForStop) (i : Nat),
      stepFn s (Label.secondCheck i) = some s' →
      ∃ w, s.waiters[i]? = some w ∧ w.pc = WaitPC.checkFlag2) ∧
    (∀ (s s' : WaitForStop) (i : Nat) (w : Waiter),
      s.waiters[i]? = some w → w.pc = WaitPC.checkFlag2 → s.stopped = true →
      stepFn s (Label.secondCheck i) = some s' → pcOf s' i = some WaitPC.done) ∧
    (∀ (s s' : WaitForStop) (i : Nat) (w : Waiter),
      s.waiters[i]? = some w → w.pc = WaitPC.checkFlag2 → s.stopped = false →
      stepFn s (Label.secondCheck i) = some s' →
      pcOf s' i = some WaitPC.awaiting) := by
  refine ⟨?_, ?_, ?_, ?_, ?_, ?_⟩
  · intro s s' i w hm hpc hstop hstep
    rw [stepFn_firstCheck hm hpc] at hstep
    cases Option.some.inj hstep
    rw [pcOf_set_self hm]
    simp [hstop]
  · intro s s' i w hm hpc hstop hstep
    rw [stepFn_firstCheck hm hpc] at hstep
    cases Option.some.inj hstep
    rw [pcOf_set_self hm]
    simp [hstop]
  · intro s s' l i w w' hstep hw hw' hne hpc'
    rcases stepFn_cases hstep with ⟨hl, rfl⟩ | ⟨j, wj, wnew, hmj, rfl, hactor, hcase⟩
    · exfalso
      rw [stop_waiters_getElem? s i, hw] at hw'
      apply hne
      rw [← hpc', ← Option.some.inj hw', pc_notify]
    · by_cases hij : i = j
      · subst hij
        rw [hw] at hmj
        cases Option.some.inj hmj
        rw [show ({ s with waiters := s.waiters.set i wnew } : WaitForStop).waiters[i]? =
              (s.waiters.set i wnew)[i]? from rfl,
            waiters_set_getElem?_self hw] at hw'
        cases Option.some.inj hw'
        rcases hcase with ⟨hl, hpc, hweq⟩ | ⟨hl, hpc, hweq⟩ | ⟨hl, hpc, hweq⟩ |
            ⟨hl, hpc, hnot, hweq⟩ | ⟨hl, hpc, hweq⟩
        · exfalso
          rw [hweq] at hpc'
          by_cases hstop : s.stopped = true <;> simp [hstop] at hpc'
        · exact hl
        · exfalso
          rw [hweq] at hpc'
          by_cases hstop : s.stopped = true <;> simp [hstop] at hpc'
        · exfalso; rw [hweq] at hpc'; simp at hpc'
        · exfalso; rw [hweq] at hpc'; simp at hpc'
      · exfalso
        rw [show ({ s with waiters := s.waiters.set j wnew } : WaitForStop).waiters[i]? =
              (s.waiters.set j wnew)[i]? from rfl,
            List.getElem?_set_ne (fun h => hij h.symm), hw] at hw'
        cases Option.some.inj hw'
        exact hne hpc'
  · intro s s' i hstep
    simp only [stepFn] at hstep
    split at hstep
    case h_2 => exact absurd hstep (by simp)
    case h_1 w hm =>
      split at hstep
      case isFalse => exact absurd hstep (by simp)
      case isTrue hpc => exact ⟨w, hm, hpc⟩
  · intro s s' i w hm hpc hstop hstep
    rw [stepFn_secondCheck hm hpc] at hstep
    cases Option.some.inj hstep
    rw [pcOf_set_self hm]
    simp [hstop]
  · intro s s' i w hm hpc hstop hstep
    rw [stepFn_secondCheck hm hpc] at hstep
    cases Option.some.inj hstep
    rw [pcOf_set_self hm]
    simp [hstop]

theorem wait_step_order_witness :
    pcOf { stopped := true, waiters := [{ pc := WaitPC.done, notified := false }] } 0 =
      some WaitPC.done :=
  wait_step_order.1 (WaitForStop.stop (WaitForStop.new 1))
    { stopped := true, waiters := [{ pc := WaitPC.done, notified := false }] } 0
    { pc := WaitPC.checkFlag1, notified := false }
    (by decide) (by decide) (by decide) (by decide)

lemma notifyListener_hasListener (w : Waiter) :
    (notifyListener w).hasListener = w.hasListener := by
  unfold Waiter.hasListener
  rw [pc_notify]

lemma notifyListener_idem (w : Waiter) :
    notifyListener (notifyListener w) = notifyListener w := by
  rw [show notifyListener (notifyListener w) = (if (notifyListener w).hasListener then { notifyListener w with notified := true } else notifyListener w) from rfl, notifyListener_hasListener]
  by_cases h : w.hasListener = true
  · simp only [h, if_true, notifyListener]
  · simp only [h, if_false, Bool.false_eq_true]

/-- C3.  The `stopped` flag is monotone and `stop()` is idempotent:
`stop()` always leaves `stopped == true`; running `stop()` twice (in
particular a second call concurrent with or after the first) produces
exactly the same state as running it once; no step of the system ever
resets `stopped` back to `false`; and the only step that turns `stopped`
from `false` to `true` is a `stop()` call, so the flag transitions
false→true exactly once and never resets. -/
theorem stop_monotone_idempotent :
    (∀ s : WaitForStop, (WaitForStop.stop s).stopped = true) ∧
    (∀ s : WaitForStop, WaitForStop.stop (WaitForStop.stop s) = WaitForStop.stop s) ∧
    (∀ (s s' : WaitForStop) (l : Label),
      stepFn s l = some s' → s.stopped = true → s'.stopped = true) ∧
    (∀ (s s' : WaitForStop) (l : Label),
      stepFn s l = some s' → s.stopped = false → s'.stopped = true →
      l = Label.stop) := by
  refine ⟨fun s => rfl, ?_, fun s s' l h h' => stepFn_stopped_mono h h',
    fun s s' l h h1 h2 => stepFn_stop_only h h1 h2⟩
  intro s
  simp only [WaitForStop.stop, List.map_map]
  congr 1
  simp [Function.comp, notifyListener_idem]

theorem stop_monotone_idempotent_witness :
    Label.firstCheck 0 = Label.stop ∨
    ({ stopped := true, waiters := ([] : List Waiter) } : WaitForStop).stopped = true :=
  Or.inr (stop_monotone_idempotent.2.2.1
    { stopped := true, waiters := ([] : List Waiter) }
    { stopped := true, waiters := ([] : List Waiter) }
    (Label.stop) (by decide) (by decide))

/-! ### Liveness of `wait()` after `stop()` -/

/-- Key invariant: once the flag is up, every suspended waiter's listener
has been notified (a waiter can only reach `awaiting` by reading
`stopped == false` at the second check, and `stop()` notifies every
listener registered at that point). -/
def stopNotifiedInv (s : WaitForStop) : Prop :=
  s.stopped = true → ∀ w ∈ s.waiters, w.pc = WaitPC.awaiting → w.notified = true

lemma stopNotifiedInv_new (n : Nat) : stopNotifiedInv (WaitForStop.new n) := by
  intro h
  exact absurd h (by simp [WaitForStop.new])

lemma stopNotifiedInv_step {s s' : WaitForStop} {l : Label}
    (hstep : stepFn s l = some s') (hinv : stopNotifiedInv s) :
    stopNotifiedInv s' := by
  rcases stepFn_cases hstep with ⟨_, rfl⟩ | ⟨j, wj, wnew, hmj, rfl, _, hcase⟩
  · intro _ w hw hpc
    rcases List.mem_map.mp hw with ⟨w0, hw0, rfl⟩
    have hpc0 : w0.pc = WaitPC.awaiting := by rw [← pc_notify w0]; exact hpc
    have hl : w0.hasListener = true := by simp [Waiter.hasListener, hpc0]
    simp [notifyListener, hl]
  · intro hstopped w hw hpc
    have hs : s.stopped = true := hstopped
    rcases List.mem_or_eq_of_mem_set hw with hmem | rfl
    · exact hinv hs w hmem hpc
    · rcases hcase with ⟨_, _, hweq⟩ | ⟨_, _, hweq⟩ | ⟨_, _, hweq⟩ |
          ⟨_, _, _, hweq⟩ | ⟨_, _, hweq⟩
      · rw [hweq] at hpc; simp [hs] at hpc
      · rw [hweq] at hpc; simp at hpc
      · rw [hweq] at hpc; simp [hs] at hpc
      · rw [hweq] at hpc; simp at hpc
      · rw [hweq] at hpc; simp at hpc

lemma stopNotifiedInv_run :
    ∀ (ls : List Label) (s s' : WaitForStop),
      run s ls = some s' → stopNotifiedInv s → stopNotifiedInv s' := by
  intro ls
  induction ls with
  | nil =>
    intro s s' h hinv
    cases h
    exact hinv
  | cons l ls ih =>
    intro s s' h hinv
    simp only [run] at h
    cases hstep : stepFn s l with
    | none => rw [hstep] at h; exact absurd h (by simp)
    | some s1 =>
      rw [hstep] at h
      exact ih s1 s' h (stopNotifiedInv_step hstep hinv)

lemma reach_stopNotifiedInv {n : Nat} {s : WaitForStop}
    (h : Reach (WaitForStop.new n) s) : stopNotifiedInv s := by
  rcases h with ⟨ls, hrun⟩
  exact stopNotifiedInv_run ls _ _ hrun (stopNotifiedInv_new n)

lemma run_one {s s' : WaitForStop} {l : Label} (h : stepFn s l = some s') :
    run s [l] = some s' := by
  simp [run, h]

lemma run_two {s s1 s2 : WaitForStop} {l1 l2 : Label}
    (h1 : stepFn s l1 = some s1) (h2 : stepFn s1 l2 = some s2) :
    run s [l1, l2] = some s2 := by
  simp [run, h1, h2]

/-- C7.  Liveness: in any reachable state in which `stop()` has set the
flag, every waiter — wherever it stands in the `wait()` protocol, including
one for which `stop()` ran between its first flag check and its listener
registration, and including one not yet started or already returned —
reaches `done` within at most three of its own steps, none of which
requires a spurious wake-up or any further help from other threads.  Hence
no `wait()` call can block forever once `stop()` has run. -/
theorem wait_liveness_after_stop :
    ∀ (n : Nat) (s : WaitForStop), Reach (WaitForStop.new n) s → s.stopped = true →
      ∀ (i : Nat) (w : Waiter), s.waiters[i]? = some w →
        ∃ ls : List Label, ls.length ≤ 3 ∧ (∀ l ∈ ls, l.actor = some i) ∧
          ∃ s', run s ls = some s' ∧ pcOf s' i = some WaitPC.done := by
  intro n s hreach hstop i w hm
  have hinv := reach_stopNotifiedInv hreach
  cases hwpc : w.pc with
  | done =>
    exact ⟨[], by simp, by simp, s, rfl, by simp [pcOf, hm, hwpc]⟩
  | checkFlag1 =>
    refine ⟨[Label.firstCheck i], by simp, by simp [Label.actor], _,
      run_one (stepFn_firstCheck hm hwpc), ?_⟩
    rw [pcOf_set_self hm]
    simp [hstop]
  | registerListener =>
    have h1 := stepFn_registerListener hm hwpc
    have hm1 : ({ s with waiters := s.waiters.set i ({ pc := WaitPC.checkFlag2, notified := false } : Waiter) } : WaitForStop).waiters[i]? = some ({ pc := WaitPC.checkFlag2, notified := false } : Waiter) :=
      waiters_set_getElem?_self hm
    have h2 := stepFn_secondCheck hm1 rfl
    refine ⟨[Label.registerListener i, Label.secondCheck i], by simp,
      by simp [Label.actor], _, run_two h1 h2, ?_⟩
    rw [pcOf_set_self hm1]
    simp [hstop]
  | checkFlag2 =>
    refine ⟨[Label.secondCheck i], by simp, by simp [Label.actor], _,
      run_one (stepFn_secondCheck hm hwpc), ?_⟩
    rw [pcOf_set_self hm]
    simp [hstop]
  | awaiting =>
    have hnot : w.notified = true := hinv hstop w (List.getElem?_mem hm) hwpc
    have h1 := stepFn_wake hm hwpc hnot
    have hm1 : ({ s with waiters := s.waiters.set i ({ pc := WaitPC.checkFlag1, notified := false } : Waiter) } : WaitForStop).waiters[i]? = some ({ pc := WaitPC.checkFlag1, notified := false } : Waiter) :=
      waiters_set_getElem?_self hm
    have h2 := stepFn_firstCheck hm1 rfl
    refine ⟨[Label.wake i, Label.firstCheck i], by simp,
      by simp [Label.actor], _, run_two h1 h2, ?_⟩
    rw [pcOf_set_self hm1]
    simp [hstop]

theorem wait_liveness_after_stop_witness :
    ∃ ls : List Label, ls.length ≤ 3 ∧ (∀ l ∈ ls, l.actor = some 0) ∧
      ∃ s', run (WaitForStop.stop (WaitForStop.new 1)) ls = some s' ∧
        pcOf s' 0 = some WaitPC.done :=
  wait_liveness_after_stop 1 (WaitForStop.stop (WaitForStop.new 1))
    ⟨[Label.stop], rfl⟩ rfl 0 { pc := WaitPC.checkFlag1, notified := false } (by decide)

/-! ### The freshly created signal -/

lemma filter_replicate_false {α : Type} (p : α → Bool) (c : α) (h : p c = false) :
    ∀ n, List.filter p (List.replicate n c) = [] := by
  intro n
  induction n with
  | zero => rfl
  | succ m ih => simp [List.replicate_succ, List.filter_cons, h, ih]

lemma no_stop_run :
    ∀ (ls : List Label) (s s' : WaitForStop), Label.stop ∉ ls →
      run s ls = some s' → s.stopped = false →
      (∀ w ∈ s.waiters, w.pc ≠ WaitPC.done) →
      s'.stopped = false ∧ ∀ w ∈ s'.waiters, w.pc ≠ WaitPC.done := by
  intro ls
  induction ls with
  | nil =>
    intro s s' _ h hstop hnd
    cases h
    exact ⟨hstop, hnd⟩
  | cons l ls ih =>
    intro s s' hnot h hstop hnd
    simp only [run] at h
    cases hstep : stepFn s l with
    | none => rw [hstep] at h; exact absurd h (by simp)
    | some s1 =>
      rw [hstep] at h
      have hlne : l ≠ Label.stop := fun he => hnot (he ▸ List.mem_cons_self l ls)
      have hstop1 : s1.stopped = false := by
        rw [stepFn_stopped_of_ne_stop hstep hlne]
        exact hstop
      have hnd1 : ∀ w ∈ s1.waiters, w.pc ≠ WaitPC.done := by
        intro w hw hdone
        rcases stepFn_cases hstep with ⟨hl, rfl⟩ | ⟨j, wj, wnew, hmj, rfl, _, hcase⟩
        · exact hlne hl
        · rcases List.mem_or_eq_of_mem_set hw with hmem | rfl
          · exact hnd w hmem hdone
          · rcases hcase with ⟨_, _, hweq⟩ | ⟨_, _, hweq⟩ | ⟨_, _, hweq⟩ |
                ⟨_, _, _, hweq⟩ | ⟨_, _, hweq⟩
            · rw [hweq] at hdone; simp [hstop] at hdone
            · rw [hweq] at hdone; simp at hdone
            · rw [hweq] at hdone; simp [hstop] at hdone
            · rw [hweq] at hdone; simp at hdone
            · rw [hweq] at hdone; simp at hdone
      exact ih s1 s' (fun hm => hnot (List.mem_cons_of_mem l hm)) h hstop1 hnd1

/-- C9.  A freshly created signal is in the Running state: `new()` sets
`stopped := false` and its event has no registered listeners; a `wait()`
call made before any `stop()` runs through its first check, registration
and second check into suspension rather than returning; and in general no
interleaving that contains no `stop()` step can make any `wait()` call
return. -/
theorem new_initial_state (n : Nat) :
    (WaitForStop.new n).stopped = false ∧
    (WaitForStop.new n).listenerCount = 0 ∧
    (∃ s, run (WaitForStop.new 1)
        [Label.firstCheck 0, Label.registerListener 0, Label.secondCheck 0] = some s ∧
      pcOf s 0 = some WaitPC.awaiting ∧ s.stopped = false) ∧
    (∀ (ls : List Label) (s : WaitForStop), Label.stop ∉ ls →
      run (WaitForStop.new n) ls = some s →
      s.stopped = false ∧
        ∀ (i : Nat) (w : Waiter), s.waiters[i]? = some w → w.pc ≠ WaitPC.done) := by
  refine ⟨rfl, ?_, ?_, ?_⟩
  · simp only [WaitForStop.listenerCount, WaitForStop.new]
    rw [filter_replicate_false _ _ (by decide) n]
    rfl
  · exact ⟨{ stopped := false, waiters := [{ pc := WaitPC.awaiting, notified := false }] },
      by decide, by decide, by decide⟩
  · intro ls s hns hrun
    have h := no_stop_run ls (WaitForStop.new n) s hns hrun rfl ?_
    · exact ⟨h.1, fun i w hm hd => h.2 w (List.getElem?_mem hm) hd⟩
    · intro w hw
      have := List.eq_of_mem_replicate hw
      rw [this]
      simp

theorem new_initial_state_witness :
    ({ stopped := false, waiters := [{ pc := WaitPC.registerListener, notified := false }] }
       : WaitForStop).stopped = false ∧
    (∀ (i : Nat) (w : Waiter),
      ({ stopped := false, waiters := [{ pc := WaitPC.registerListener, notified := false }] } : WaitForStop).waiters[i]? = some w →
      w.pc ≠ WaitPC.done) :=
  (new_initial_state 1).2.2.2 [Label.firstCheck 0]
    { stopped := false, waiters := [{ pc := WaitPC.registerListener, notified := false }] }
    (by decide) (by decide)

/-! ### Properties of the thread-pool runner -/

lemma with_thread_pool_all_spawned {P T : Type} (ap : Option Nat) (spawnOk : Nat → Bool)
    (fres : Except P T) (hok : ∀ i, spawnOk i = true) :
    with_thread_pool ap spawnOk fres =
      (((List.range (num_threads ap)).map fun i => PoolEvent.spawn i (thread_name i)) ++
        [PoolEvent.runF, PoolEvent.stop] ++
        (List.range (num_threads ap)).map PoolEvent.join,
       match fres with
       | Except.ok value => PoolOutcome.ok value
       | Except.error p => PoolOutcome.panicked (Panic.user p)) := by
  have hfind : (List.range (num_threads ap)).find? (fun i => !spawnOk i) = none :=
    List.find?_eq_none.mpr fun x _ => by simp [hok x]
  simp only [with_thread_pool, hfind]

lemma countJoins_spawns (l : List Nat) :
    countJoins (l.map fun i => PoolEvent.spawn i (thread_name i)) = 0 := by
  simp only [countJoins, List.countP_map]
  exact List.countP_eq_zero.mpr fun a _ => by simp [Function.comp]

lemma countJoins_joins (l : List Nat) : countJoins (l.map PoolEvent.join) = l.length := by
  simp only [countJoins, List.countP_map]
  rw [show l.length = (l.map PoolEvent.join).length by simp, List.length_map]
  exact List.countP_eq_length.mpr fun a _ => by simp [Function.comp]

lemma countSpawns_spawns (l : List Nat) :
    countSpawns (l.map fun i => PoolEvent.spawn i (thread_name i)) = l.length := by
  simp only [countSpawns, List.countP_map]
  rw [show l.length = (l.map (fun i => PoolEvent.spawn i (thread_name i))).length by simp,
    List.length_map]
  exact List.countP_eq_length.mpr fun a _ => by simp [Function.comp]

lemma countSpawns_joins (l : List Nat) : countSpawns (l.map PoolEvent.join) = 0 := by
  simp only [countSpawns, List.countP_map]
  exact List.countP_eq_zero.mpr fun a _ => by simp [Function.comp]

/-- C4.  Panic-safe teardown of the pooled run: when every spawn succeeds,
the trace of `with_thread_pool` always contains the `stop()` call, ends
with the join of all `num_threads` workers, and only after those joins is
the outcome delivered to the caller: `f`'s panic payload re-raised exactly
as `f` raised it, or `f`'s value if it returned normally. -/
theorem with_thread_pool_panic_teardown :
    ∀ (P T : Type) (ap : Option Nat) (spawnOk : Nat → Bool) (fres : Except P T),
      (∀ i, spawnOk i = true) →
      PoolEvent.stop ∈ (with_thread_pool ap spawnOk fres).1 ∧
      countJoins (with_thread_pool ap spawnOk fres).1 = num_threads ap ∧
      (∃ pre, (with_thread_pool ap spawnOk fres).1 =
        pre ++ (List.range (num_threads ap)).map PoolEvent.join) ∧
      (∀ p, fres = Except.error p →
        (with_thread_pool ap spawnOk fres).2 = PoolOutcome.panicked (Panic.user p)) ∧
      (∀ value, fres = Except.ok value →
        (with_thread_pool ap spawnOk fres).2 = PoolOutcome.ok value) := by
  intro P T ap spawnOk fres hok
  rw [with_thread_pool_all_spawned ap spawnOk fres hok]
  refine ⟨?_, ?_, ?_, ?_, ?_⟩
  · simp
  · simp only [countJoins, List.countP_append]
    have h1 := countJoins_spawns (List.range (num_threads ap))
    have h2 := countJoins_joins (List.range (num_threads ap))
    simp only [countJoins] at h1 h2
    simp [h1, h2]
  · exact ⟨_, rfl⟩
  · intro p hp
    rw [hp]
  · intro value hv
    rw [hv]

theorem with_thread_pool_panic_teardown_witness :
    (∀ i : Nat, (fun _ => true : Nat → Bool) i = true) ∧
    PoolEvent.stop ∈
      (with_thread_pool (some 2) (fun _ => true)
        (Except.error "boom" : Except String Nat)).1 :=
  ⟨fun _ => rfl,
    (with_thread_pool_panic_teardown String Nat (some 2) (fun _ => true)
      (Except.error "boom") (fun _ => rfl)).1⟩

/-- C5.  Pool sizing: `num_threads` equals the detected hardware
parallelism and falls back to `1` when detection fails, so it is at least
`1`; and when every spawn succeeds the trace of `with_thread_pool`
contains exactly `num_threads` spawn events and exactly `num_threads` join
events. -/
theorem with_thread_pool_pool_size :
    ∀ (P T : Type) (ap : Option Nat) (spawnOk : Nat → Bool) (fres : Except P T),
      (∀ m, ap = some m → 1 ≤ m) → (∀ i, spawnOk i = true) →
      1 ≤ num_threads ap ∧
      (ap = none → num_threads ap = 1) ∧
      (∀ m, ap = some m → num_threads ap = m) ∧
      countSpawns (with_thread_pool ap spawnOk fres).1 = num_threads ap ∧
      countJoins (with_thread_pool ap spawnOk fres).1 = num_threads ap := by
  intro P T ap spawnOk fres hpos hok
  rw [with_thread_pool_all_spawned ap spawnOk fres hok]
  refine ⟨?_, ?_, ?_, ?_, ?_⟩
  · cases ap with
    | none => exact Nat.le_refl 1
    | some m => exact hpos m rfl
  · intro h; rw [h]; rfl
  · intro m h; rw [h]; rfl
  · simp only [countSpawns, List.countP_append]
    have h1 := countSpawns_spawns (List.range (num_threads ap))
    have h2 := countSpawns_joins (List.range (num_threads ap))
    simp only [countSpawns] at h1 h2
    simp [h1, h2]
  · simp only [countJoins, List.countP_append]
    have h1 := countJoins_spawns (List.range (num_threads ap))
    have h2 := countJoins_joins (List.range (num_threads ap))
    simp only [countJoins] at h1 h2
    simp [h1, h2]

theorem with_thread_pool_pool_size_witness :
    1 ≤ num_threads (some 4) ∧
    countSpawns (with_thread_pool (some 4) (fun _ => true)
      (Except.ok 42 : Except String Nat)).1 = num_threads (some 4) :=
  ⟨(with_thread_pool_pool_size String Nat (some 4) (fun _ => true) (Except.ok 42)
      (fun m hm => by cases hm; exact by decide) (fun _ => rfl)).1,
   (with_thread_pool_pool_size String Nat (some 4) (fun _ => true) (Except.ok 42)
      (fun m hm => by cases hm; exact by decide) (fun _ => rfl)).2.2.2.1⟩

/-- C8 counterexample.  With two detected parallelism units and the spawn
of worker 1 failing (worker 0 already running), the operation does not
abort: `stopper.stop()` is never reached, worker 0 waits on a signal that
is never stopped, `thread::scope`'s join blocks forever while the expect
panic unwinds, and the call never returns to the caller — the outcome is
deadlock, not the delivered `.expect` panic the claim promises. -/
theorem with_thread_pool_spawn_failure_fatal_counterexample :
    (with_thread_pool (some 2) (fun j => decide (j = 0))
        (Except.ok 42 : Except String Nat)).2 = PoolOutcome.deadlock ∧
    (with_thread_pool (some 2) (fun j => decide (j = 0))
        (Except.ok 42 : Except String Nat)).2 ≠
      PoolOutcome.panicked Panic.spawnFailed := by
  decide

/-- C8 (amended).  A failed worker spawn never degrades the pool: the
driving function is never invoked and the call never returns a value, so
the program never continues to run with fewer than `num_threads` workers.
When the very first spawn fails (no worker running yet), the
`.expect("failed to spawn thread")` panic aborts the call; when a later
spawn fails, the already-running workers wait on a stop signal that is
never raised, so the joins performed by `thread::scope` block forever and
the call never returns at all. -/
theorem with_thread_pool_spawn_failure_fatal :
    ∀ (P T : Type) (ap : Option Nat) (spawnOk : Nat → Bool) (fres : Except P T),
      (∃ i, i < num_threads ap ∧ spawnOk i = false) →
      PoolEvent.runF ∉ (with_thread_pool ap spawnOk fres).1 ∧
      (∀ value : T, (with_thread_pool ap spawnOk fres).2 ≠ PoolOutcome.ok value) ∧
      (spawnOk 0 = false →
        (with_thread_pool ap spawnOk fres).2 =
          PoolOutcome.panicked Panic.spawnFailed) ∧
      (spawnOk 0 = true →
        (with_thread_pool ap spawnOk fres).2 = PoolOutcome.deadlock) := by
  intro P T ap spawnOk fres hex
  rcases hex with ⟨i, hi, hfail⟩
  have hsome : ((List.range (num_threads ap)).find? (fun j => !spawnOk j)).isSome := by
    rw [List.find?_isSome]
    exact ⟨i, List.mem_range.mpr hi, by simp [hfail]⟩
  cases hfind : (List.range (num_threads ap)).find? (fun j => !spawnOk j) with
  | none => rw [hfind] at hsome; exact absurd hsome (by simp)
  | some k =>
    have hkfail : spawnOk k = false := by
      have hk := List.find?_some hfind
      simpa using hk
    refine ⟨?_, ?_, ?_, ?_⟩
    · simp only [with_thread_pool, hfind]
      intro hmem
      rcases List.mem_map.mp hmem with ⟨a, _, he⟩
      exact PoolEvent.noConfusion he
    · intro value
      simp only [with_thread_pool, hfind]
      by_cases hk : k = 0 <;> simp [hk]
    · intro h0
      have hN : 0 < num_threads ap := Nat.lt_of_le_of_lt (Nat.zero_le i) hi
      have hfind0 : (List.range (num_threads ap)).find? (fun j => !spawnOk j) = some 0 := by
        cases hNe : num_threads ap with
        | zero => rw [hNe] at hN; exact absurd hN (by simp)
        | succ m =>
          rw [List.range_succ_eq_map]
          exact List.find?_cons_of_pos _ (by simp [h0])
      rw [hfind] at hfind0
      cases Option.some.inj hfind0
      simp only [with_thread_pool, hfind]
      simp
    · intro h0
      have hk : k ≠ 0 := fun hk0 => by
        rw [hk0, h0] at hkfail
        exact Bool.noConfusion hkfail
      simp only [with_thread_pool, hfind]
      simp [hk]

theorem with_thread_pool_spawn_failure_fatal_witness :
    (∃ i, i < num_threads (some 3) ∧ (fun j => decide (j ≠ 1) : Nat → Bool) i = false) ∧
    PoolEvent.runF ∉ (with_thread_pool (some 3) (fun j => decide (j ≠ 1))
      (Except.ok 42 : Except String Nat)).1 ∧
    (with_thread_pool (some 3) (fun j => decide (j ≠ 1))
      (Except.ok 42 : Except String Nat)).2 = PoolOutcome.deadlock :=
  ⟨⟨1, by decide, by decide⟩,
    (with_thread_pool_spawn_failure_fatal String Nat (some 3) (fun j => decide (j ≠ 1))
      (Except.ok 42) ⟨1, by decide, by decide⟩).1,
    (with_thread_pool_spawn_failure_fatal String Nat (some 3) (fun j => decide (j ≠ 1))
      (Except.ok 42) ⟨1, by decide, by decide⟩).2.2.2 (by decide)⟩

/-- C10.  Worker thread naming: when every spawn succeeds, the spawn events
of the pooled run record, in spawn order, exactly the pairs
(0, smol-macros-0), (1, smol-macros-1), …, (N-1, smol-macros-(N-1)) for
`N = num_threads` — each index occurs exactly once — and the resulting
thread names are pairwise distinct. -/
lemma spawnNames_append (l1 l2 : List PoolEvent) :
    spawnNames (l1 ++ l2) = spawnNames l1 ++ spawnNames l2 := by
  simp [spawnNames]

lemma spawnNames_spawn_map (l : List Nat) :
    spawnNames (l.map fun i => PoolEvent.spawn i (thread_name i)) = l.map thread_name := by
  induction l with
  | nil => rfl
  | cons a l ih => simp only [List.map_cons, spawnNames, List.filterMap_cons] at ih ⊢; rw [ih]

lemma spawnNames_join_map (l : List Nat) :
    spawnNames (l.map PoolEvent.join) = [] := by
  induction l with
  | nil => rfl
  | cons a l ih => simp only [List.map_cons, spawnNames, List.filterMap_cons] at ih ⊢; rw [ih]

lemma spawnRecords_append (l1 l2 : List PoolEvent) :
    spawnRecords (l1 ++ l2) = spawnRecords l1 ++ spawnRecords l2 := by
  simp [spawnRecords]

lemma spawnRecords_spawn_map (l : List Nat) :
    spawnRecords (l.map fun i => PoolEvent.spawn i (thread_name i)) =
      l.map fun i => (i, thread_name i) := by
  induction l with
  | nil => rfl
  | cons a l ih => simp only [List.map_cons, spawnRecords, List.filterMap_cons] at ih ⊢; rw [ih]

lemma spawnRecords_join_map (l : List Nat) :
    spawnRecords (l.map PoolEvent.join) = [] := by
  induction l with
  | nil => rfl
  | cons a l ih => simp only [List.map_cons, spawnRecords, List.filterMap_cons] at ih ⊢; rw [ih]

theorem worker_thread_names :
    ∀ (P T : Type) (ap : Option Nat) (spawnOk : Nat → Bool) (fres : Except P T),
      (∀ i, spawnOk i = true) →
      spawnRecords (with_thread_pool ap spawnOk fres).1 =
        (List.range (num_threads ap)).map (fun i => (i, thread_name i)) ∧
      spawnNames (with_thread_pool ap spawnOk fres).1 =
        (List.range (num_threads ap)).map thread_name ∧
      (spawnNames (with_thread_pool ap spawnOk fres).1).Nodup := by
  intro P T ap spawnOk fres hok
  rw [with_thread_pool_all_spawned ap spawnOk fres hok]
  have hnames : spawnNames
      (((List.range (num_threads ap)).map fun i => PoolEvent.spawn i (thread_name i)) ++
        [PoolEvent.runF, PoolEvent.stop] ++
        (List.range (num_threads ap)).map PoolEvent.join) =
      (List.range (num_threads ap)).map thread_name := by
    rw [spawnNames_append, spawnNames_append, spawnNames_spawn_map, spawnNames_join_map]
    simp [spawnNames]
  refine ⟨?_, hnames, ?_⟩
  · rw [spawnRecords_append, spawnRecords_append, spawnRecords_spawn_map,
      spawnRecords_join_map]
    simp [spawnRecords]
  · rw [hnames]
    exact List.Nodup.map thread_name_injective (List.nodup_range _)

theorem worker_thread_names_witness :
    spawnNames (with_thread_pool (some 3) (fun _ => true)
      (Except.ok 42 : Except String Nat)).1 =
      (List.range (num_threads (some 3))).map thread_name :=
  (worker_thread_names String Nat (some 3) (fun _ => true) (Except.ok 42)
    (fun _ => rfl)).2.1

/-- C6.  The single-thread executor kinds spawn no OS thread: both
`MainExecutor` impls for `LocalExecutor` and `Rc<LocalExecutor>` produce an
empty pool-event trace (zero spawn events) and return exactly the driving
function's result applied to a freshly constructed handle, so the only
failure modes are those of `f` itself. -/
theorem with_main_single_thread :
    ∀ (P T : Type) (f : LocalExecutor → Except P T) (g : Rc LocalExecutor → Except P T),
      countSpawns (LocalExecutor.with_main f).1 = 0 ∧
      (LocalExecutor.with_main f).2 = f LocalExecutor.new ∧
      countSpawns (Rc.with_main g).1 = 0 ∧
      (Rc.with_main g).2 = g (Rc.new LocalExecutor.new) := by
  intro P T f g
  exact ⟨rfl, rfl, rfl, rfl⟩
